import Mathlib

/-!
Shallow embedding of the voxel-game core (terrain generation, world store,
mesh building, collision resolution, raycasting, mining, block placement)
of this repository, together with proofs of the specification claims.

Sources embedded:
- `src/src/lib/terrain.ts` (hash, smoothNoise, octaveNoise, BLOCK_TYPES,
  posKey, generateTerrain; buildMesh and getBlockUV from the adjoining
  VoxelChunk/textures modules in the same file set)
- `src/src/components/game/MinecraftGame.tsx` and `src/unnamed/part_002`
  (isSolid, aabbOverlaps, isOnGround, moveY, the per-frame movement step,
  screenRaycast/raycastBlock, blockOverlapsPlayer, placeBlock, mining state)

Modelling conventions:
- JS numbers are modelled as `ℚ` (the source only ever produces values for
  which IEEE-754 double rounding is exact on the executions the claims are
  about; the one knowing exception, the 32-bit hash's intermediate
  multiplication, is noted at its definition).
- The JS `Map<string, BlockType>` keyed by `posKey(x,y,z) = "x,y,z"` is
  modelled as an insertion-ordered association list keyed by the coordinate
  triple itself: JS number-to-string printing is injective, so the string
  key and the numeric triple identify each other.
- Trigonometric camera directions enter the core only as an already
  computed direction / movement vector; they are taken as parameters.
-/

namespace VoxelGame

/-! ### Block types (`BLOCK_TYPES` in terrain.ts) -/

def AIR : ℕ := 0
def GRASS : ℕ := 1
def DIRT : ℕ := 2
def STONE : ℕ := 3
def WOOD : ℕ := 4
def SAND : ℕ := 5
def WATER : ℕ := 6
def LEAVES : ℕ := 7
def SNOW : ℕ := 8
def PLANKS : ℕ := 9

/-- Modelled from the spec: the spec's block-type list includes a
crafting-table block, and `placeBlock` in `src/unnamed/part_002` branches on
`BLOCK_TYPES.CRAFTING_TABLE`; the extended `terrain.ts` defining its numeric
code is not under `src/`, so we assign it the next free code. None of the
proved properties depend on the actual value. -/
def CRAFTING_TABLE : ℕ := 10

/-! ### World store

A JS `Map` keyed by `posKey(x,y,z)`: an insertion-ordered association list
with unique keys.  `set` overwrites in place, `delete` removes the entry. -/

abbrev Pos := ℚ × ℚ × ℚ

abbrev World := List (Pos × ℕ)

namespace World

def get : World → Pos → Option ℕ
  | [], _ => none
  | (k', v) :: rest, k => if k' = k then some v else get rest k

def set : World → Pos → ℕ → World
  | [], k, v => [(k, v)]
  | (k', v') :: rest, k, v =>
      if k' = k then (k, v) :: rest else (k', v') :: set rest k v

def del : World → Pos → World
  | [], _ => []
  | (k', v') :: rest, k => if k' = k then rest else (k', v') :: del rest k

def has (w : World) (k : Pos) : Bool := (w.get k).isSome

end World

/-! ### Collision constants and helpers (MinecraftGame.tsx / part_002) -/

def EYE : ℚ := 162/100
def HALF : ℚ := 3/10
def HEAD : ℚ := 18/100
def PLAYER_HEIGHT : ℚ := EYE + HEAD

def isSolid (w : World) (x y z : ℤ) : Bool :=
  match w.get ((x : ℚ), (y : ℚ), (z : ℚ)) with
  | none => false
  | some bt => bt != AIR && bt != WATER

/-- The inclusive integer range `[a, b]` traversed by the source's
`for (i = a; i <= b; i++)` loops. -/
def intRange (a b : ℤ) : List ℤ :=
  (List.range (b + 1 - a).toNat).map (fun (i : ℕ) => a + (i : ℤ))

/-- The `aabbOverlaps` test: does the player box (half-width `HALF`, height
`PLAYER_HEIGHT` from the feet) overlap any solid block? -/
def aabbOverlaps (px feetY pz : ℚ) (w : World) : Bool :=
  let x0 := ⌊px - HALF⌋
  let x1 := ⌊px + HALF⌋
  let z0 := ⌊pz - HALF⌋
  let z1 := ⌊pz + HALF⌋
  let y0 := ⌊feetY⌋
  let y1 := ⌊feetY + PLAYER_HEIGHT - 1/100⌋
  (intRange x0 x1).any fun bx =>
    (intRange z0 z1).any fun bz =>
      (intRange y0 y1).any fun b => isSolid w bx b bz

/-- The four-corner solidity test at integer level `b` used by `isOnGround`
and by the snap-landing scan inside `moveY`. -/
def cornersSolid (w : World) (px pz : ℚ) (b : ℤ) : Bool :=
  isSolid w ⌊px - HALF⌋ b ⌊pz - HALF⌋ ||
  isSolid w ⌊px + HALF⌋ b ⌊pz - HALF⌋ ||
  isSolid w ⌊px - HALF⌋ b ⌊pz + HALF⌋ ||
  isSolid w ⌊px + HALF⌋ b ⌊pz + HALF⌋

def isOnGround (px feetY pz : ℚ) (w : World) : Bool :=
  let b := ⌊feetY - 1/1000⌋
  let topOfBlock : ℚ := (b : ℚ) + 1
  if |feetY - topOfBlock| > 1/100 then false
  else cornersSolid w px pz b

structure MoveYResult where
  feetY : ℚ
  velY : ℚ
  onGround : Bool
deriving DecidableEq

/-- One step of the 10-iteration binary search for the last non-overlapping
offset along the vertical motion. -/
def bsearchStep (w : World) (px feetY pz sign : ℚ) (p : ℚ × ℚ) : ℚ × ℚ :=
  let mid := (p.1 + p.2) / 2
  if aabbOverlaps px (feetY + sign * mid) pz w then (p.1, mid) else (mid, p.2)

def bsearchIter (w : World) (px feetY pz sign : ℚ) : ℕ → ℚ × ℚ → ℚ × ℚ
  | 0, p => p
  | n + 1, p => bsearchIter w px feetY pz sign n (bsearchStep w px feetY pz sign p)

/-- The `moveY` vertical resolver from MinecraftGame.tsx / part_002. -/
def moveY (w : World) (px feetY pz dy velY : ℚ) : MoveYResult :=
  if dy ≤ 0 ∧ isOnGround px feetY pz w ∧ velY ≤ 0 then
    ⟨feetY, 0, true⟩
  else
    let newFeetY := feetY + dy
    if aabbOverlaps px newFeetY pz w = false then
      if dy ≤ 0 then
        let startBlock := ⌊feetY⌋
        let endBlock := ⌊newFeetY⌋
        -- descending scan `for (by = startBlock; by >= endBlock; by--)`
        let candidates := (List.range (startBlock - endBlock + 1).toNat).map
          (fun i => startBlock - i)
        match candidates.find? (fun (b : ℤ) =>
            decide (((b : ℚ)) ≤ feetY) && decide (((b : ℚ)) ≥ newFeetY) &&
            cornersSolid w px pz (b - 1) &&
            !aabbOverlaps px ((b : ℚ)) pz w) with
        | some b => ⟨(b : ℚ), 0, true⟩
        | none => ⟨newFeetY, velY, false⟩
      else ⟨newFeetY, velY, false⟩
    else
      let sign : ℚ := if dy > 0 then 1 else -1
      let p := bsearchIter w px feetY pz sign 10 (0, |dy|)
      let safeFeetY := feetY + sign * p.1
      if dy ≤ 0 then
        let snapped : ℤ := ⌈safeFeetY - 1/1000⌉
        if aabbOverlaps px (snapped : ℚ) pz w = false then ⟨(snapped : ℚ), 0, true⟩
        else ⟨safeFeetY, 0, true⟩
      else ⟨safeFeetY, 0, false⟩

/-- Player physical state: camera position (eye height), vertical velocity,
on-ground flag. -/
structure PlayerState where
  px : ℚ
  py : ℚ
  pz : ℚ
  velY : ℚ
  onGround : Bool
deriving DecidableEq

/-- One `useFrame` physics tick of `CameraController`: gravity and vertical
resolution via `moveY`, then the X acceptance test at the resolved Y, then
the Z test.  `mvX`/`mvZ` stand for the yaw-derived unit move direction. -/
def frameStep (w : World) (s : PlayerState) (delta mvX mvZ : ℚ) : PlayerState :=
  let dt := min delta (5/100)
  let velY1 := max (s.velY - 28 * dt) (-20)
  let gravDy := velY1 * dt
  let feetY0 := s.py - EYE
  let r := moveY w s.px feetY0 s.pz gravDy velY1
  let newX := s.px + mvX * (9/2) * dt
  let px1 := if aabbOverlaps newX r.feetY s.pz w = false then newX else s.px
  let newZ := s.pz + mvZ * (9/2) * dt
  let pz1 := if aabbOverlaps px1 r.feetY newZ w = false then newZ else s.pz
  { px := px1, py := r.feetY + EYE, pz := pz1, velY := r.velY, onGround := r.onGround }

/-! ### Raycasting (`raycastBlock` / `screenRaycast`)

Both raycast entry points march identically from an origin along a direction
(they differ only in how the direction is produced, which is outside the
core); the march is embedded once, with origin and direction as inputs. -/

structure Vec3 where
  x : ℚ
  y : ℚ
  z : ℚ
deriving DecidableEq

structure RayHit where
  x : ℤ
  y : ℤ
  z : ℤ
  placeX : ℤ
  placeY : ℤ
  placeZ : ℤ
  blockType : ℕ
deriving DecidableEq

def voxelKey (v : ℤ × ℤ × ℤ) : Pos := ((v.1 : ℚ), (v.2.1 : ℚ), (v.2.2 : ℚ))

/-- The voxel containing the `k`-th sample point `origin + dir * (0.3 + 0.04k)`. -/
def sampleVoxel (origin dir : Vec3) (k : ℕ) : ℤ × ℤ × ℤ :=
  let t : ℚ := 3/10 + (1/25) * k
  (⌊origin.x + dir.x * t⌋, ⌊origin.y + dir.y * t⌋, ⌊origin.z + dir.z * t⌋)

/-- Returns `some bt` when the stored type at `v` is neither absent, air nor water
(the source's `bt !== undefined && bt !== AIR && bt !== WATER`). -/
def rayHitType (w : World) (v : ℤ × ℤ × ℤ) : Option ℕ :=
  match w.get (voxelKey v) with
  | some bt => if bt ≠ AIR ∧ bt ≠ WATER then some bt else none
  | none => none

def rayHits (w : World) (v : ℤ × ℤ × ℤ) : Bool := (rayHitType w v).isSome

/-- The march `for (t = 0.3; t < 6; t += 0.04)`, tracking the previously
sampled voxel.  The loop guard `t < 6` is the exit condition; the fuel
argument only makes the recursion structural and is chosen `≥ 144` so that
the guard, not the fuel, terminates the loop. -/
def raycastAux (w : World) (origin dir : Vec3) :
    ℕ → ℕ → ℤ × ℤ × ℤ → Option RayHit
  | 0, _, _ => none
  | fuel + 1, k, prev =>
      if (3/10 + (1/25) * (k : ℚ)) < 6 then
        let v := sampleVoxel origin dir k
        match rayHitType w v with
        | some bt =>
            some ⟨v.1, v.2.1, v.2.2, prev.1, prev.2.1, prev.2.2, bt⟩
        | none => raycastAux w origin dir fuel (k + 1) v
      else none

def raycastBlock (origin dir : Vec3) (w : World) : Option RayHit :=
  raycastAux w origin dir 150 0 (⌊origin.x⌋, ⌊origin.y⌋, ⌊origin.z⌋)

/-! ### Block placement (`blockOverlapsPlayer`, `placeBlock` of part_002) -/

def blockOverlapsPlayer (bx bY bz : ℤ) (pp : Vec3) : Bool :=
  let feetY := pp.y - EYE
  let headY := pp.y + HEAD
  decide (pp.x + HALF > (bx : ℚ) ∧ pp.x - HALF < (bx : ℚ) + 1 ∧
          headY > (bY : ℚ) ∧ feetY < (bY : ℚ) + 1 ∧
          pp.z + HALF > (bz : ℚ) ∧ pp.z - HALF < (bz : ℚ) + 1)

def RayHit.placeKey (r : RayHit) : Pos :=
  ((r.placeX : ℚ), (r.placeY : ℚ), (r.placeZ : ℚ))

/-- The `placeBlock` of part_002, from the raycast on: the inventory-slot guards
before the raycast return without touching the world or the version counter,
so the world-effect of a call with a valid selected block `sb` is embedded.
`mutateWorld` performs the single `set` and bumps the version by one. -/
def placeBlock (w : World) (version : ℕ) (pp : Vec3) (origin dir : Vec3)
    (sb : ℕ) : World × ℕ :=
  match raycastBlock origin dir w with
  | none => (w, version)
  | some r =>
      if r.blockType = CRAFTING_TABLE then (w, version)
      else if blockOverlapsPlayer r.placeX r.placeY r.placeZ pp then (w, version)
      else if w.has r.placeKey then (w, version)
      else (w.set r.placeKey sb, version + 1)

/-! ### Mining state machine (part_002 `startMining` / `miningLoop`) -/

/-- Modelled from the spec: `getBlockBreakTime` is imported by part_002 from
the extended `terrain.ts`, which is not under `src/`.  The spec says only
that the required total time is a positive per-block-type constant
("break-time (seconds to mine, varies by type)"); the proved properties
depend only on positivity, not on the actual values chosen here. -/
def getBlockBreakTime (bt : ℕ) : ℚ :=
  if bt = GRASS then 3/5
  else if bt = DIRT then 3/4
  else if bt = STONE then 3/2
  else if bt = WOOD then 5/4
  else if bt = SAND then 1/2
  else if bt = LEAVES then 3/10
  else if bt = SNOW then 1/5
  else if bt = PLANKS then 5/4
  else 1

structure MiningState where
  targetKey : ℤ × ℤ × ℤ
  blockType : ℕ
  elapsed : ℚ
deriving DecidableEq

/-- The `progress = min(elapsed / breakTime, 1)` value computed by `miningLoop`. -/
def miningProgress (m : MiningState) : ℚ :=
  min (m.elapsed / getBlockBreakTime m.blockType) 1

/-- The elapsed-time accumulation of one `miningLoop` tick
(`mining.elapsed += dt`). -/
def miningTick (m : MiningState) (dt : ℚ) : MiningState :=
  { m with elapsed := m.elapsed + dt }

/-- The `startMining` transition given the raycast outcome: no hit stops mining; the same
target continues the session unchanged; a different target restarts with
`elapsed = 0`. -/
def startMining (cur : Option MiningState) (hit : Option RayHit) :
    Option MiningState :=
  match hit with
  | none => none
  | some r =>
      let key := (r.x, r.y, r.z)
      match cur with
      | some m => if m.targetKey = key then some m else some ⟨key, r.blockType, 0⟩
      | none => some ⟨key, r.blockType, 0⟩

/-! ### Mesh builder (`buildMesh` of VoxelChunk, `getBlockUV` of textures) -/

def faceDir : ℕ → ℤ × ℤ × ℤ
  | 0 => (0, 1, 0)
  | 1 => (0, -1, 0)
  | 2 => (1, 0, 0)
  | 3 => (-1, 0, 0)
  | 4 => (0, 0, 1)
  | _ => (0, 0, -1)

def faceCorners : ℕ → List (ℕ × ℕ × ℕ)
  | 0 => [(0,1,1), (1,1,1), (1,1,0), (0,1,0)]
  | 1 => [(0,0,0), (1,0,0), (1,0,1), (0,0,1)]
  | 2 => [(1,0,0), (1,1,0), (1,1,1), (1,0,1)]
  | 3 => [(0,0,1), (0,1,1), (0,1,0), (0,0,0)]
  | 4 => [(1,0,1), (1,1,1), (0,1,1), (0,0,1)]
  | _ => [(0,0,0), (0,1,0), (1,1,0), (1,0,0)]

def uvRowOf : ℕ → ℕ
  | 0 => 0
  | 1 => 2
  | _ => 1

/-- The shade table `FACE_SHADE = [1.0, 0.5, 0.8, 0.8, 0.7, 0.7]`. -/
def faceShade : ℕ → ℚ
  | 0 => 1
  | 1 => 1/2
  | 2 => 4/5
  | 3 => 4/5
  | _ => 7/10

structure UVRect where
  u0 : ℚ
  u1 : ℚ
  v0 : ℚ
  v1 : ℚ
deriving DecidableEq

def blockAtlasCol (bt : ℕ) : ℕ :=
  if bt = GRASS then 0
  else if bt = DIRT then 1
  else if bt = STONE then 2
  else if bt = WOOD then 3
  else if bt = SAND then 4
  else if bt = WATER then 5
  else if bt = LEAVES then 6
  else if bt = SNOW then 7
  else 0

def getBlockUV (bt uvRow : ℕ) : UVRect :=
  let col := blockAtlasCol bt
  ⟨(col : ℚ) / 9, ((col : ℚ) + 1) / 9,
   1 - ((uvRow : ℚ) + 1) / 3, 1 - (uvRow : ℚ) / 3⟩

def neighborType (w : World) (p : Pos) (f : ℕ) : ℕ :=
  let d := faceDir f
  (w.get (p.1 + (d.1 : ℚ), p.2.1 + (d.2.1 : ℚ), p.2.2 + (d.2.2 : ℚ))).getD AIR

/-- The culling predicate shared by both passes of `buildMesh`: a face is
emitted unless it is skipped by
`if (neighbor !== AIR && neighbor !== LEAVES) continue;`
`if (blockType === LEAVES && neighbor === LEAVES) continue;`. -/
def faceVisible (w : World) (p : Pos) (bt : ℕ) (f : ℕ) : Bool :=
  let nb := neighborType w p f
  !(nb != AIR && nb != LEAVES) && !(bt == LEAVES && nb == LEAVES)

/-- Both passes skip air entries; the key-string parse in the source is the
identity on keys produced by `posKey`. -/
def entriesOf (w : World) : List (Pos × ℕ) := w.filter (fun e => e.2 != AIR)

/-- The count pass: `faceCount` after the first loop of `buildMesh`. -/
def faceCountOf (w : World) : ℕ :=
  (entriesOf w).foldl
    (fun n e => n + ((List.range 6).filter (fun f => faceVisible w e.1 e.2 f)).length) 0

/-- The geometry buffers and the running vertex/face counters of the fill
pass.  The source writes into pre-allocated flat arrays at offsets derived
from `vi`/`fi`; the embedding appends the same scalars in the same order, so
the final lengths are the number of scalars written. -/
structure MeshBuild where
  positions : List ℚ
  normals : List ℚ
  uvs : List ℚ
  colors : List ℚ
  indices : List ℕ
  vi : ℕ
  fi : ℕ
deriving DecidableEq

/-- One emitted quad of the fill pass: 4 vertices (position, normal, shade),
the 4 UV pairs, and the 6 triangle indices based at `vOffset = vi`. -/
def emitFace (p : Pos) (bt : ℕ) (f : ℕ) (b : MeshBuild) : MeshBuild :=
  let d := faceDir f
  let sh := faceShade f
  let uv := getBlockUV bt (uvRowOf f)
  { positions := b.positions ++
      ((faceCorners f).map (fun c =>
        [p.1 + (c.1 : ℚ), p.2.1 + (c.2.1 : ℚ), p.2.2 + (c.2.2 : ℚ)])).flatten
    normals := b.normals ++
      (List.replicate 4 [(d.1 : ℚ), (d.2.1 : ℚ), (d.2.2 : ℚ)]).flatten
    uvs := b.uvs ++ [uv.u0, uv.v0, uv.u0, uv.v1, uv.u1, uv.v1, uv.u1, uv.v0]
    colors := b.colors ++ List.replicate 12 sh
    indices := b.indices ++ [b.vi, b.vi + 1, b.vi + 2, b.vi, b.vi + 2, b.vi + 3]
    vi := b.vi + 4
    fi := b.fi + 1 }

def emptyBuild : MeshBuild := ⟨[], [], [], [], [], 0, 0⟩

/-- The fill pass of `buildMesh`: the same iteration and culling predicate as
the count pass, emitting quads. -/
def fillPass (w : World) : MeshBuild :=
  (entriesOf w).foldl
    (fun b e =>
      (List.range 6).foldl
        (fun b f => if faceVisible w e.1 e.2 f then emitFace e.1 e.2 f b else b) b)
    emptyBuild

/-- The emission trace of the fill pass: one `(voxel, blockType, face)`
triple per emitted quad, in emission order. -/
def emittedFaces (w : World) : List (Pos × ℕ × ℕ) :=
  ((entriesOf w).map
    (fun e => ((List.range 6).filter (fun f => faceVisible w e.1 e.2 f)).map
      (fun f => (e.1, e.2, f)))).flatten

/-! ### Terrain generation (`hash`, `smoothNoise`, `octaveNoise`,
`generateTerrain` of terrain.ts) -/

/-- JS `ToInt32` truncation of a number (truncate toward zero, wrap into
`[-2^31, 2^31)`). -/
def jsTrunc (q : ℚ) : ℤ := if 0 ≤ q then ⌊q⌋ else ⌈q⌉

def u32ofInt (n : ℤ) : ℕ := (n % 4294967296).toNat

def toInt32 (q : ℚ) : ℤ :=
  let m := jsTrunc q % 4294967296
  if m < 2147483648 then m else m - 4294967296

def i32ofU32 (p : ℕ) : ℤ :=
  if p < 2147483648 then (p : ℤ) else (p : ℤ) - 4294967296

/-- IEEE-754 float64 rounding of an integer value (round to nearest, ties to
even, 53-bit mantissa).  JS evaluates `(h ^ (h >>> 13)) * 1274126177` in
float64, whose magnitude can exceed 2^53, so the product is rounded before
`| 0` truncates it. -/
def fl64 (n : ℤ) : ℤ :=
  let m := n.natAbs
  if m < 2 ^ 53 then n
  else
    let s := m.log2 - 52
    let q := m >>> s
    let r := m % 2 ^ s
    let half := 2 ^ (s - 1)
    let q' := if half < r ∨ (r = half ∧ q % 2 = 1) then q + 1 else q
    (if 0 ≤ n then 1 else -1) * (q' * 2 ^ s : ℕ)

/-- The 32-bit coordinate hash of terrain.ts, mapped to `[0, 1]`.  The two
coordinate sums stay far below 2^53 for any realistic coordinate and are
modelled exactly; the intermediate multiplication is rounded by `fl64`
exactly as float64 does. -/
def hash (x z : ℚ) : ℚ :=
  let a := toInt32 (x * 374761393 + z * 668265263)
  let b := toInt32 (x * 668265263 + z * 374761393)
  let h1 := Nat.xor (u32ofInt a) (u32ofInt b)
  let h2 := Nat.xor h1 (h1 >>> 13)
  let h3 : ℤ := fl64 (i32ofU32 h2 * 1274126177)
  let h4 := u32ofInt h3
  ((h4 % 2147483648 : ℕ) : ℚ) / 2147483647

def smoothNoise (x z : ℚ) : ℚ :=
  let ix := ⌊x⌋
  let iz := ⌊z⌋
  let fx := x - ix
  let fz := z - iz
  let ux := fx * fx * (3 - 2 * fx)
  let uz := fz * fz * (3 - 2 * fz)
  let a := hash ix iz
  let b := hash (ix + 1) iz
  let c := hash ix (iz + 1)
  let d := hash (ix + 1) (iz + 1)
  a + (b - a) * ux + (c - a) * uz + (d - b - c + a) * ux * uz

/-- Octave accumulation `(value, amplitude, frequency, max)`. -/
def octaveNoise (x z : ℚ) (octaves : ℕ) : ℚ :=
  let r := (List.range octaves).foldl
    (fun (acc : ℚ × ℚ × ℚ × ℚ) _ =>
      (acc.1 + smoothNoise (x * acc.2.2.1) (z * acc.2.2.1) * acc.2.1,
       acc.2.1 * (1/2), acc.2.2.1 * 2, acc.2.2.2 + acc.2.1))
    (0, 1, 1, 0)
  r.1 / r.2.2.2

/-- The x (resp. z) coordinate of loop index `i` in
`for (x = -size/2; x < size/2; x++)`. -/
def colX (size : ℕ) (i : ℕ) : ℚ := -(size : ℚ) / 2 + i

/-- The column height `Math.floor(SEA_LEVEL + octaveNoise((x+seed)*0.05, (z+seed)*0.05, 4) * MAX_HEIGHT)`
with `SEA_LEVEL = 4`, `MAX_HEIGHT = 12`. -/
def heightAt (size : ℕ) (seed : ℚ) (i j : ℕ) : ℤ :=
  let nx := (colX size i + seed) * (5/100)
  let nz := (colX size j + seed) * (5/100)
  ⌊(4 : ℚ) + octaveNoise nx nz 4 * 12⌋

def surfaceBlock (h : ℤ) : ℕ :=
  if h < 4 + 1 then SAND else if h > 4 + 8 then SNOW else GRASS

/-- The block type the column fill loop stores at height `y` in a column of
surface height `h`. -/
def columnBlock (h : ℤ) (y : ℤ) : ℕ :=
  if y = h then surfaceBlock h
  else if y > h - 3 then DIRT
  else STONE

/-- The column fill `for (y = 0; y <= height; y++) world.set(...)`. -/
def fillColumn (size : ℕ) (seed : ℚ) (i j : ℕ) (w : World) : World :=
  let x := colX size i
  let z := colX size j
  let h := heightAt size seed i j
  (List.range (h + 1).toNat).foldl
    (fun w (yn : ℕ) => w.set (x, (yn : ℚ), z) (columnBlock h (yn : ℤ))) w

/-- One leaf candidate: the Manhattan-ball test, then check-before-set. -/
def leafStep (x z : ℚ) (h : ℤ) (w : World) (off : ℤ × ℤ × ℤ) : World :=
  if |off.1| + |off.2.1| + |off.2.2 - (h + 5)| < 4 then
    let key : Pos := (x + (off.1 : ℚ), (off.2.2 : ℚ), z + (off.2.1 : ℚ))
    if w.has key then w else w.set key LEAVES
  else w

/-- The leaf loops in source order: `lx` outer, `lz` middle, `ly` inner. -/
def leafOffsets (h : ℤ) : List (ℤ × ℤ × ℤ) :=
  ((intRange (-2) 2).map (fun lx =>
    ((intRange (-2) 2).map (fun lz =>
      (intRange (h + 3) (h + 6)).map (fun ly => (lx, lz, ly)))).flatten)).flatten

/-- Tree placement for one column: the height gate, the independent tree
hash with threshold `0.92` (modelled as the exact rational; the nearest
float64 differs by ~4e-17, indistinguishable at the hash's 2^-31
granularity for the claims proved here), the trunk, then the leaves. -/
def treePart (size : ℕ) (seed : ℚ) (i j : ℕ) (w : World) : World :=
  let x := colX size i
  let z := colX size j
  let h := heightAt size seed i j
  if 4 + 2 ≤ h ∧ h ≤ 4 + 8 then
    if 92/100 < hash (x * 7 + seed) (z * 7 + seed) then
      let w1 := (intRange (h + 1) (h + 4)).foldl
        (fun w ty => w.set (x, (ty : ℚ), z) WOOD) w
      (leafOffsets h).foldl (leafStep x z h) w1
    else w
  else w

def processColumn (size : ℕ) (seed : ℚ) (i j : ℕ) (w : World) : World :=
  treePart size seed i j (fillColumn size seed i j w)

/-- The columns in loop order (`x` outer, `z` inner). -/
def columnsList (size : ℕ) : List (ℕ × ℕ) :=
  ((List.range size).map (fun i => (List.range size).map (fun j => (i, j)))).flatten

def generateTerrain (size : ℕ) (seed : ℚ) : World :=
  (columnsList size).foldl (fun w ij => processColumn size seed ij.1 ij.2 w) []

/-! ### Concrete scenarios used by the end-to-end claims and witnesses -/

/-- A flat 4×4 world with only stone at y = 0. -/
def flatWorld : World :=
  ((List.range 4).map (fun x =>
    (List.range 4).map (fun z => ((((x : ℚ)), (0 : ℚ), ((z : ℚ))), STONE)))).flatten

/-- One physics tick over `flatWorld` at 20 fps with no horizontal input. -/
def groundTick (s : PlayerState) : PlayerState := frameStep flatWorld s (1/20) 0 0

/-- The player dropped at (2, 5, 2): camera at feet + eye height. -/
def dropStart : PlayerState := ⟨2, 5 + EYE, 2, 0, false⟩

/-- A single stone block for the raycast witness. -/
def rayDemoWorld : World := [((2, 0, 0), STONE)]

def rayDemoOrigin : Vec3 := ⟨1/2, 1/2, 1/2⟩

def rayDemoDir : Vec3 := ⟨1, 0, 0⟩

/-! ## Theorems

First the supporting lemmas about the world store, then the claims. -/

namespace World

theorem get_set (w : World) (k : Pos) (v : ℕ) (k' : Pos) :
    (w.set k v).get k' = if k' = k then some v else w.get k' := by
  induction w with
  | nil =>
      rcases eq_or_ne k' k with h | h
      · subst h; simp [set, get]
      · simp [set, get, h, Ne.symm h]
  | cons e rest ih =>
      obtain ⟨ek, ev⟩ := e
      rcases eq_or_ne ek k with h | h
      · subst h
        rcases eq_or_ne k' ek with h2 | h2
        · subst h2; simp [set, get]
        · simp [set, get, h2, Ne.symm h2]
      · rcases eq_or_ne ek k' with h2 | h2
        · subst h2
          simp [set, get, h]
        · simp [set, get, h, h2, ih]

theorem get_eq_some_of_mem {w : World} (hnd : (w.map Prod.fst).Nodup)
    {k : Pos} {v : ℕ} (hm : (k, v) ∈ w) : w.get k = some v := by
  induction w with
  | nil => cases hm
  | cons e rest ih =>
      obtain ⟨ek, ev⟩ := e
      simp only [List.map_cons, List.nodup_cons] at hnd
      rcases List.mem_cons.mp hm with h | h
      · injection h with h1 h2
        subst h1; subst h2
        simp [get]
      · have hne : ek ≠ k := by
          intro he
          exact hnd.1 (by rw [he]; exact List.mem_map.mpr ⟨(k, v), h, rfl⟩)
        simp only [get, if_neg hne]
        exact ih hnd.2 h

theorem mem_of_get_eq_some {w : World} {k : Pos} {v : ℕ}
    (h : w.get k = some v) : (k, v) ∈ w := by
  induction w with
  | nil => simp [get] at h
  | cons e rest ih =>
      obtain ⟨ek, ev⟩ := e
      by_cases he : ek = k
      · subst he
        simp [get] at h
        subst h
        exact List.mem_cons_self _ _
      · simp only [get, if_neg he] at h
        exact List.mem_cons_of_mem _ (ih h)

end World

set_option maxRecDepth 1000000

/-- The binary search maintains that the `lo` offset never overlaps, provided
it starts from a non-overlapping offset. -/
theorem bsearchIter_lo_no_overlap (w : World) (px feetY pz sign : ℚ) (n : ℕ)
    (p : ℚ × ℚ) (h : aabbOverlaps px (feetY + sign * p.1) pz w = false) :
    aabbOverlaps px (feetY + sign * (bsearchIter w px feetY pz sign n p).1) pz w
      = false := by
  induction n generalizing p with
  | zero => exact h
  | succ n ih =>
      rw [bsearchIter]
      apply ih
      unfold bsearchStep
      dsimp only
      split
      · exact h
      · next hmid =>
          simpa using hmid

/-- The resolver `moveY` never moves a non-overlapping player into an overlapping
position. -/
theorem moveY_no_overlap (w : World) (px feetY pz dy velY : ℚ)
    (h : aabbOverlaps px feetY pz w = false) :
    aabbOverlaps px (moveY w px feetY pz dy velY).feetY pz w = false := by
  unfold moveY
  dsimp only
  split
  · exact h
  · split
    · next hnew =>
        split
        · split
          · next b heq =>
              have hp := List.find?_some heq
              simp only [Bool.and_eq_true, Bool.not_eq_eq_eq_not, Bool.not_true,
                decide_eq_true_eq] at hp
              simpa using hp.2
          · exact hnew
        · exact hnew
    · by_cases hdy : dy > 0
      · have hlo : aabbOverlaps px
            (feetY + 1 * (bsearchIter w px feetY pz 1 10 (0, |dy|)).1) pz w = false :=
          bsearchIter_lo_no_overlap w px feetY pz 1 10 (0, |dy|) (by simpa using h)
        simp only [if_pos hdy, if_neg (not_le.mpr hdy)]
        exact hlo
      · have hlo : aabbOverlaps px
            (feetY + (-1) * (bsearchIter w px feetY pz (-1) 10 (0, |dy|)).1) pz w = false :=
          bsearchIter_lo_no_overlap w px feetY pz (-1) 10 (0, |dy|) (by simpa using h)
        simp only [if_neg hdy, if_pos (not_lt.mp hdy)]
        split
        · next hsnap => simpa using hsnap
        · exact hlo

/-- C1: Collision containment — if the player's box does not overlap any
solid block at the start of the tick, then after the per-frame movement step
(vertical resolution via `moveY`, then the X test, then the Z test) the
resolved position still does not overlap any solid block. -/
theorem collision_containment (w : World) (s : PlayerState) (delta mvX mvZ : ℚ)
    (h : aabbOverlaps s.px (s.py - EYE) s.pz w = false) :
    aabbOverlaps (frameStep w s delta mvX mvZ).px
      ((frameStep w s delta mvX mvZ).py - EYE)
      (frameStep w s delta mvX mvZ).pz w = false := by
  unfold frameStep
  dsimp only
  have h1 := moveY_no_overlap w s.px (s.py - EYE) s.pz
    (max (s.velY - 28 * min delta (5/100)) (-20) * min delta (5/100))
    (max (s.velY - 28 * min delta (5/100)) (-20)) h
  rw [show ∀ a : ℚ, a + EYE - EYE = a from fun a => by ring]
  split
  · next hx =>
      split
      · next hz => exact hz
      · exact hx
  · split
    · next hz => exact hz
    · exact h1

/-- Closed-form witness for C1 at a concrete world and state. -/
theorem collision_containment_witness :
    aabbOverlaps dropStart.px (dropStart.py - EYE) dropStart.pz flatWorld = false ∧
    aabbOverlaps (frameStep flatWorld dropStart (1/20) 0 0).px
      ((frameStep flatWorld dropStart (1/20) 0 0).py - EYE)
      (frameStep flatWorld dropStart (1/20) 0 0).pz flatWorld = false :=
  ⟨by with_unfolding_all decide,
   collision_containment flatWorld dropStart (1/20) 0 0 (by with_unfolding_all decide)⟩

/-- C10: whenever `moveY` reports `onGround = true` the returned vertical
velocity is exactly 0, and the returned velocity is either the unchanged
input velocity (only in the unobstructed non-landing case, where the
position moved the full `dy` and `onGround` is false) or exactly 0. -/
theorem moveY_velocity_invariant (w : World) (px feetY pz dy velY : ℚ) :
    ((moveY w px feetY pz dy velY).onGround = true →
      (moveY w px feetY pz dy velY).velY = 0) ∧
    ((moveY w px feetY pz dy velY).velY = 0 ∨
      ((moveY w px feetY pz dy velY).velY = velY ∧
       (moveY w px feetY pz dy velY).onGround = false ∧
       (moveY w px feetY pz dy velY).feetY = feetY + dy)) := by
  unfold moveY
  dsimp only
  split
  · simp
  · split
    · split
      · split
        · simp
        · exact ⟨by simp, Or.inr ⟨rfl, rfl, rfl⟩⟩
      · exact ⟨by simp, Or.inr ⟨rfl, rfl, rfl⟩⟩
    · split <;> split <;> first | (split <;> simp) | simp


/-- C7: Ground snap — in the flat 4×4 stone world, the player dropped at
(2, 5, 2) with zero horizontal velocity comes to rest after 11 ticks with
feet exactly at y = 1 (the integer top of the stone layer), vertical
velocity 0 and the on-ground flag set, and that state is a fixed point of
the tick (no penetration, no floating gap). -/
theorem ground_snap :
    (groundTick^[11] dropStart).py - EYE = 1 ∧
    (groundTick^[11] dropStart).velY = 0 ∧
    (groundTick^[11] dropStart).onGround = true ∧
    groundTick (groundTick^[11] dropStart) = groundTick^[11] dropStart := by
  with_unfolding_all decide


theorem rayHits_eq_false_iff (w : World) (v : ℤ × ℤ × ℤ) :
    rayHits w v = false ↔ rayHitType w v = none := by
  rw [rayHits]
  cases rayHitType w v <;> simp

/-- The loop guard `t < 6` at step `k` holds exactly for the 143 samples
`k = 0, …, 142`. -/
theorem ray_guard_iff (k : ℕ) : (3/10 + (1/25) * (k : ℚ) < 6) ↔ k ≤ 142 := by
  constructor
  · intro h
    have h2 : (k : ℚ) < 143 := by linarith
    have := Nat.cast_lt (α := ℚ) |>.mp (by exact_mod_cast h2)
    omega
  · intro h
    have h2 : (k : ℚ) ≤ 142 := by exact_mod_cast h
    linarith

theorem raycastAux_none (w : World) (origin dir : Vec3) (fuel : ℕ) :
    ∀ (k : ℕ) (prev : ℤ × ℤ × ℤ),
      (∀ j, k ≤ j → j ≤ 142 → rayHits w (sampleVoxel origin dir j) = false) →
      raycastAux w origin dir fuel k prev = none := by
  induction fuel with
  | zero => intro k prev _; rfl
  | succ fuel ih =>
      intro k prev hmiss
      rw [raycastAux]
      by_cases hk : (3/10 + (1/25) * (k : ℚ)) < 6
      · rw [if_pos hk]
        have hk142 : k ≤ 142 := (ray_guard_iff k).mp hk
        have hnone : rayHitType w (sampleVoxel origin dir k) = none :=
          (rayHits_eq_false_iff w _).mp (hmiss k le_rfl hk142)
        dsimp only
        rw [hnone]
        exact ih (k + 1) _ (fun j hj hj142 => hmiss j (by omega) hj142)
      · rw [if_neg hk]

theorem raycastAux_hit (w : World) (origin dir : Vec3) (fuel : ℕ) :
    ∀ (k : ℕ) (prev : ℤ × ℤ × ℤ) (k0 : ℕ) (bt : ℕ),
      k ≤ k0 → k0 < fuel + k → k0 ≤ 142 →
      (∀ j, k ≤ j → j < k0 → rayHits w (sampleVoxel origin dir j) = false) →
      rayHitType w (sampleVoxel origin dir k0) = some bt →
      raycastAux w origin dir fuel k prev = some
        { x := (sampleVoxel origin dir k0).1
          y := (sampleVoxel origin dir k0).2.1
          z := (sampleVoxel origin dir k0).2.2
          placeX := (if k0 = k then prev else sampleVoxel origin dir (k0 - 1)).1
          placeY := (if k0 = k then prev else sampleVoxel origin dir (k0 - 1)).2.1
          placeZ := (if k0 = k then prev else sampleVoxel origin dir (k0 - 1)).2.2
          blockType := bt } := by
  induction fuel with
  | zero => intro k prev k0 bt hk hfuel _ _ _; omega
  | succ fuel ih =>
      intro k prev k0 bt hk hfuel hk142 hmiss hhit
      rw [raycastAux]
      have hguard : (3/10 + (1/25) * (k : ℚ)) < 6 :=
        (ray_guard_iff k).mpr (le_trans hk hk142)
      rw [if_pos hguard]
      dsimp only
      rcases eq_or_lt_of_le hk with heq | hlt
      · subst heq
        rw [hhit]
        simp
      · have hnone : rayHitType w (sampleVoxel origin dir k) = none :=
          (rayHits_eq_false_iff w _).mp (hmiss k le_rfl hlt)
        rw [hnone]
        have hres := ih (k + 1) (sampleVoxel origin dir k) k0 bt (by omega) (by omega)
          hk142 (fun j hj hj0 => hmiss j (by omega) hj0) hhit
        rw [hres]
        rcases eq_or_ne k0 (k + 1) with he | he
        · subst he
          rw [if_pos rfl, if_neg (by omega : ¬ k + 1 = k)]
          norm_num
        · rw [if_neg he, if_neg (by omega : ¬ k0 = k)]

/-- C3: Raycast first-hit and placement cell — the raycaster samples
`origin + dir·t` for `t = 0.3, 0.34, …` while `t < 6` (steps `k ≤ 142`).
If no sampled voxel stores a type other than air and water, it returns
`none`; otherwise it returns the first such sampled voxel together with the
voxel sampled immediately before it (the origin's voxel when the first
sample already hits) as the placement coordinate, and the stored type. -/
theorem raycast_first_hit (w : World) (origin dir : Vec3) :
    ((∀ (j : ℕ), (3/10 + (1/25) * (j : ℚ) < 6) →
        rayHits w (sampleVoxel origin dir j) = false) →
      raycastBlock origin dir w = none) ∧
    (∀ (k0 bt : ℕ), (3/10 + (1/25) * (k0 : ℚ) < 6) →
      (∀ j, j < k0 → rayHits w (sampleVoxel origin dir j) = false) →
      rayHitType w (sampleVoxel origin dir k0) = some bt →
      raycastBlock origin dir w = some
        { x := (sampleVoxel origin dir k0).1
          y := (sampleVoxel origin dir k0).2.1
          z := (sampleVoxel origin dir k0).2.2
          placeX := (if k0 = 0 then (⌊origin.x⌋, ⌊origin.y⌋, ⌊origin.z⌋)
                     else sampleVoxel origin dir (k0 - 1)).1
          placeY := (if k0 = 0 then (⌊origin.x⌋, ⌊origin.y⌋, ⌊origin.z⌋)
                     else sampleVoxel origin dir (k0 - 1)).2.1
          placeZ := (if k0 = 0 then (⌊origin.x⌋, ⌊origin.y⌋, ⌊origin.z⌋)
                     else sampleVoxel origin dir (k0 - 1)).2.2
          blockType := bt }) := by
  constructor
  · intro hmiss
    exact raycastAux_none w origin dir 150 0 _
      (fun j _ hj142 => hmiss j ((ray_guard_iff j).mpr hj142))
  · intro k0 bt hguard hmiss hhit
    exact raycastAux_hit w origin dir 150 0 _ k0 bt (Nat.zero_le k0) (by
        have := (ray_guard_iff k0).mp hguard
        omega)
      ((ray_guard_iff k0).mp hguard) (fun j _ hj0 => hmiss j hj0) hhit

/-- Closed-form witness for C3: a stone block at (2,0,0) straight down the
x axis from (0.5, 0.5, 0.5) is first sampled at step 30 (t = 1.5) and the
placement cell is (1,0,0). -/
theorem raycast_first_hit_witness :
    rayHitType rayDemoWorld (sampleVoxel rayDemoOrigin rayDemoDir 30) = some STONE ∧
    raycastBlock rayDemoOrigin rayDemoDir rayDemoWorld =
      some ⟨2, 0, 0, 1, 0, 0, STONE⟩ := by
  refine ⟨by with_unfolding_all decide, ?_⟩
  have h := (raycast_first_hit rayDemoWorld rayDemoOrigin rayDemoDir).2 30 STONE
    (by norm_num)
    (by with_unfolding_all decide)
    (by with_unfolding_all decide)
  rw [h]
  with_unfolding_all decide


/-- C4: Placement rejection atomicity — when the raycast yields a placement
coordinate that is already occupied or that overlaps the player's collision
box, the world map and the version counter are both unchanged; when
placement succeeds, exactly that one key is set and the version counter is
incremented by one. -/
theorem placeBlock_atomicity (w : World) (version : ℕ) (pp origin dir : Vec3)
    (sb : ℕ) (r : RayHit) (hr : raycastBlock origin dir w = some r) :
    ((w.has r.placeKey = true ∨
        blockOverlapsPlayer r.placeX r.placeY r.placeZ pp = true) →
      placeBlock w version pp origin dir sb = (w, version)) ∧
    (r.blockType ≠ CRAFTING_TABLE →
      blockOverlapsPlayer r.placeX r.placeY r.placeZ pp = false →
      w.has r.placeKey = false →
      placeBlock w version pp origin dir sb = (w.set r.placeKey sb, version + 1) ∧
      ∀ k, (w.set r.placeKey sb).get k =
        if k = r.placeKey then some sb else w.get k) := by
  constructor
  · intro hrej
    unfold placeBlock
    rw [hr]
    dsimp only
    by_cases hct : r.blockType = CRAFTING_TABLE
    · rw [if_pos hct]
    · rw [if_neg hct]
      by_cases hov : blockOverlapsPlayer r.placeX r.placeY r.placeZ pp = true
      · rw [if_pos hov]
      · rcases hrej with hocc | hov2
        · rw [if_neg hov, if_pos hocc]
        · exact absurd hov2 hov
  · intro hct hov hocc
    unfold placeBlock
    rw [hr]
    dsimp only
    rw [if_neg hct, if_neg (by simp [hov]), if_neg (by simp [hocc])]
    exact ⟨rfl, fun k => World.get_set w r.placeKey sb k⟩

/-- Closed-form witness for C4: placing planks against the stone block of
the raycast demo scenario sets exactly the raycast-derived placement cell
(1,0,0) and bumps the version from 5 to 6. -/
theorem placeBlock_atomicity_witness :
    placeBlock rayDemoWorld 5 ⟨10, 10, 10⟩ rayDemoOrigin rayDemoDir PLANKS =
      (World.set rayDemoWorld ((1 : ℚ), (0 : ℚ), (0 : ℚ)) PLANKS, 6) := by
  have h := (placeBlock_atomicity rayDemoWorld 5 ⟨10, 10, 10⟩ rayDemoOrigin
      rayDemoDir PLANKS ⟨2, 0, 0, 1, 0, 0, 3⟩
      (by with_unfolding_all decide)).2
    (by decide) (by with_unfolding_all decide) (by with_unfolding_all decide)
  exact h.1.trans (by with_unfolding_all decide)

theorem getBlockBreakTime_pos (bt : ℕ) : 0 < getBlockBreakTime bt := by
  unfold getBlockBreakTime
  split_ifs <;> norm_num

/-- C5: Mining progress — one mining tick accumulates the elapsed time and
the progress equals `min(elapsed / breakTime, 1)`; with a nonnegative tick
duration the progress is non-decreasing on an unchanged target; and
`startMining` on a raycast target different from the current one restarts
the session with `elapsed = 0`, whose progress is 0. -/
theorem mining_progress_props (m : MiningState) (dt : ℚ) (hdt : 0 ≤ dt)
    (cur : MiningState) (r : RayHit) (hne : cur.targetKey ≠ (r.x, r.y, r.z)) :
    miningProgress (miningTick m dt) =
      min ((m.elapsed + dt) / getBlockBreakTime m.blockType) 1 ∧
    miningProgress m ≤ miningProgress (miningTick m dt) ∧
    startMining (some cur) (some r) = some ⟨(r.x, r.y, r.z), r.blockType, 0⟩ ∧
    miningProgress ⟨(r.x, r.y, r.z), r.blockType, 0⟩ = 0 := by
  refine ⟨rfl, ?_, ?_, ?_⟩
  · unfold miningProgress miningTick
    dsimp only
    apply min_le_min _ le_rfl
    exact (div_le_div_iff_of_pos_right (getBlockBreakTime_pos m.blockType)).mpr
      (by linarith)
  · unfold startMining
    dsimp only
    rw [if_neg hne]
  · unfold miningProgress
    dsimp only
    simp

/-- Closed-form witness for C5 at a concrete session, tick and retarget. -/
theorem mining_progress_props_witness :
    miningProgress (miningTick ⟨(0, 0, 0), STONE, 1/2⟩ (1/60)) =
      min ((1/2 + 1/60) / getBlockBreakTime STONE) 1 ∧
    miningProgress ⟨(0, 0, 0), STONE, 1/2⟩ ≤
      miningProgress (miningTick ⟨(0, 0, 0), STONE, 1/2⟩ (1/60)) ∧
    startMining (some ⟨(5, 5, 5), DIRT, 1/4⟩) (some ⟨1, 2, 3, 0, 2, 3, GRASS⟩) =
      some ⟨(1, 2, 3), GRASS, 0⟩ ∧
    miningProgress ⟨(1, 2, 3), GRASS, 0⟩ = 0 :=
  mining_progress_props ⟨(0, 0, 0), STONE, 1/2⟩ (1/60) (by norm_num)
    ⟨(5, 5, 5), DIRT, 1/4⟩ ⟨1, 2, 3, 0, 2, 3, GRASS⟩ (by decide)

/-- C6: Terrain determinism — `generateTerrain` is a pure function of
`(size, seed)` alone (no hidden state parameter exists in the embedding, the
noise path being the pure integer `hash`), so two calls with the same
arguments agree on every key: same membership and same stored block type. -/
theorem generateTerrain_deterministic (size : ℕ) (seed : ℚ) :
    generateTerrain size seed = generateTerrain size seed ∧
    (∀ k, (generateTerrain size seed).get k = (generateTerrain size seed).get k) ∧
    (∀ k, (generateTerrain size seed).has k = (generateTerrain size seed).has k) :=
  ⟨rfl, fun _ => rfl, fun _ => rfl⟩


theorem mem_entriesOf {w : World} {e : Pos × ℕ} :
    e ∈ entriesOf w ↔ e ∈ w ∧ e.2 ≠ AIR := by
  simp [entriesOf, List.mem_filter]

theorem faceVisible_iff (w : World) (p : Pos) (bt f : ℕ) :
    faceVisible w p bt f = true ↔
      (neighborType w p f = AIR ∨ (neighborType w p f = LEAVES ∧ bt ≠ LEAVES)) := by
  unfold faceVisible
  dsimp only
  by_cases h1 : neighborType w p f = AIR
  · simp [h1, AIR, LEAVES]
  · by_cases h2 : neighborType w p f = LEAVES
    · by_cases h3 : bt = LEAVES <;> simp [h1, h2, h3, AIR, LEAVES]
    · simp [h1, h2]

theorem mem_emittedFaces (w : World) (p : Pos) (bt f : ℕ) :
    (p, bt, f) ∈ emittedFaces w ↔
      ((p, bt) ∈ entriesOf w ∧ f < 6 ∧ faceVisible w p bt f = true) := by
  unfold emittedFaces
  rw [List.mem_flatten]
  constructor
  · rintro ⟨l, hl, hm⟩
    rcases List.mem_map.mp hl with ⟨e, he, rfl⟩
    rcases List.mem_map.mp hm with ⟨f', hf', hfe⟩
    injection hfe with he1 hfe
    injection hfe with he2 hf
    subst he1; subst he2; subst hf
    rcases List.mem_filter.mp hf' with ⟨hrange, hvis⟩
    exact ⟨he, List.mem_range.mp hrange, hvis⟩
  · rintro ⟨he, hf6, hvis⟩
    refine ⟨((List.range 6).filter (fun f => faceVisible w p bt f)).map
      (fun f => (p, bt, f)), List.mem_map.mpr ⟨(p, bt), he, rfl⟩, ?_⟩
    exact List.mem_map.mpr ⟨f, List.mem_filter.mpr
      ⟨List.mem_range.mpr hf6, hvis⟩, rfl⟩

/-- C2: Mesh face-culling — for a world with unique keys (every JS `Map`
has them) and a non-air voxel, the fill pass of `buildMesh` emits a quad for
face `f` of the voxel at `p` holding type `bt` if and only if the voxel
really stores `bt` and the neighbor in that direction is absent/air, or is
leaves while the voxel itself is not leaves.  In particular a voxel whose 6
neighbors are solid non-leaf blocks contributes no face, two adjacent leaf
voxels emit no shared face, and a leaf voxel adjacent to air emits one. -/
theorem mesh_face_culling (w : World) (hw : (w.map Prod.fst).Nodup)
    (p : Pos) (bt f : ℕ) (hf : f < 6) (hbt : bt ≠ AIR) :
    (p, bt, f) ∈ emittedFaces w ↔
      (w.get p = some bt ∧
        (neighborType w p f = AIR ∨ (neighborType w p f = LEAVES ∧ bt ≠ LEAVES))) := by
  rw [mem_emittedFaces]
  constructor
  · rintro ⟨he, _, hvis⟩
    rcases mem_entriesOf.mp he with ⟨hmem, _⟩
    exact ⟨World.get_eq_some_of_mem hw hmem, (faceVisible_iff w p bt f).mp hvis⟩
  · rintro ⟨hget, hvis⟩
    exact ⟨mem_entriesOf.mpr ⟨World.mem_of_get_eq_some hget, hbt⟩, hf,
      (faceVisible_iff w p bt f).mpr hvis⟩

/-- Closed-form witness for C2: the single stone block of the demo world
has all 6 neighbors absent, so its top face (f = 0) is emitted. -/
theorem mesh_face_culling_witness :
    (((2, 0, 0), STONE, 0) ∈ emittedFaces rayDemoWorld ↔
      (World.get rayDemoWorld (2, 0, 0) = some STONE ∧
        (neighborType rayDemoWorld (2, 0, 0) 0 = AIR ∨
          (neighborType rayDemoWorld (2, 0, 0) 0 = LEAVES ∧ STONE ≠ LEAVES)))) :=
  mesh_face_culling rayDemoWorld (by with_unfolding_all decide) (2, 0, 0) STONE 0
    (by decide) (by decide)

theorem foldl_add_count (w : World) (es : List (Pos × ℕ)) :
    ∀ n : ℕ,
      es.foldl (fun n e =>
        n + ((List.range 6).filter (fun f => faceVisible w e.1 e.2 f)).length) n =
      n + es.foldl (fun n e =>
        n + ((List.range 6).filter (fun f => faceVisible w e.1 e.2 f)).length) 0 := by
  induction es with
  | nil => intro n; simp
  | cons e es ih =>
      intro n
      simp only [List.foldl_cons]
      rw [ih (n + _), ih (0 + _)]
      omega

/-- The emission trace has exactly one element per face counted by the
count pass: the two passes agree because they evaluate the same predicate on
the same unmutated map. -/
theorem emittedFaces_length (w : World) :
    (emittedFaces w).length = faceCountOf w := by
  unfold emittedFaces faceCountOf
  generalize entriesOf w = es
  induction es with
  | nil => rfl
  | cons e es ih =>
      simp only [List.map_cons, List.flatten_cons, List.length_append,
        List.foldl_cons, List.length_map]
      rw [foldl_add_count w es, ih]
      omega

theorem emitFace_sizes (p : Pos) (bt f : ℕ) (b : MeshBuild) :
    (emitFace p bt f b).positions.length = b.positions.length + 12 ∧
    (emitFace p bt f b).normals.length = b.normals.length + 12 ∧
    (emitFace p bt f b).uvs.length = b.uvs.length + 8 ∧
    (emitFace p bt f b).colors.length = b.colors.length + 12 ∧
    (emitFace p bt f b).indices.length = b.indices.length + 6 ∧
    (emitFace p bt f b).vi = b.vi + 4 ∧
    (emitFace p bt f b).fi = b.fi + 1 := by
  rcases f with _|_|_|_|_|f <;>
    refine ⟨?_, ?_, ?_, ?_, ?_, ?_, ?_⟩ <;>
      simp [emitFace, faceCorners, List.replicate]

/-- Sizes after folding the 6-face emission loop of one entry over any face
list, counted by the same culling predicate. -/
theorem foldFaces_sizes (w : World) (p : Pos) (bt : ℕ) (fs : List ℕ) :
    ∀ b : MeshBuild,
      ((fs.foldl (fun b f => if faceVisible w p bt f then emitFace p bt f b else b)
          b).positions.length =
        b.positions.length + 12 * (fs.filter (fun f => faceVisible w p bt f)).length) ∧
      ((fs.foldl (fun b f => if faceVisible w p bt f then emitFace p bt f b else b)
          b).normals.length =
        b.normals.length + 12 * (fs.filter (fun f => faceVisible w p bt f)).length) ∧
      ((fs.foldl (fun b f => if faceVisible w p bt f then emitFace p bt f b else b)
          b).uvs.length =
        b.uvs.length + 8 * (fs.filter (fun f => faceVisible w p bt f)).length) ∧
      ((fs.foldl (fun b f => if faceVisible w p bt f then emitFace p bt f b else b)
          b).colors.length =
        b.colors.length + 12 * (fs.filter (fun f => faceVisible w p bt f)).length) ∧
      ((fs.foldl (fun b f => if faceVisible w p bt f then emitFace p bt f b else b)
          b).indices.length =
        b.indices.length + 6 * (fs.filter (fun f => faceVisible w p bt f)).length) ∧
      ((fs.foldl (fun b f => if faceVisible w p bt f then emitFace p bt f b else b)
          b).vi =
        b.vi + 4 * (fs.filter (fun f => faceVisible w p bt f)).length) ∧
      ((fs.foldl (fun b f => if faceVisible w p bt f then emitFace p bt f b else b)
          b).fi =
        b.fi + (fs.filter (fun f => faceVisible w p bt f)).length) := by
  induction fs with
  | nil => intro b; simp
  | cons f fs ih =>
      intro b
      by_cases hv : faceVisible w p bt f = true
      · simp only [List.foldl_cons, List.filter_cons, hv, if_pos hv, ite_true,
          List.length_cons]
        obtain ⟨e1, e2, e3, e4, e5, e6, e7⟩ := emitFace_sizes p bt f b
        obtain ⟨i1, i2, i3, i4, i5, i6, i7⟩ := ih (emitFace p bt f b)
        refine ⟨?_, ?_, ?_, ?_, ?_, ?_, ?_⟩ <;> omega
      · simp only [List.foldl_cons, List.filter_cons, hv, ite_false,
          Bool.false_eq_true, if_neg hv]
        exact ih b

/-- C9: Two-pass mesh build safety — the fill pass of `buildMesh` writes
exactly the number of faces counted by the count pass (both passes evaluate
the same culling predicate on the same unmutated map): the final counters
satisfy `fi = faceCount` and `vi = 4·faceCount`, and the scalars written
fill the pre-allocated buffers exactly (`positions/normals/colors`:
`faceCount·4·3`, `uvs`: `faceCount·4·2`, `indices`: `faceCount·6`), so
every buffer write is within the allocation. -/
theorem mesh_two_pass_safety (w : World) :
    (fillPass w).fi = faceCountOf w ∧
    (fillPass w).vi = 4 * faceCountOf w ∧
    (fillPass w).positions.length = faceCountOf w * 4 * 3 ∧
    (fillPass w).normals.length = faceCountOf w * 4 * 3 ∧
    (fillPass w).uvs.length = faceCountOf w * 4 * 2 ∧
    (fillPass w).colors.length = faceCountOf w * 4 * 3 ∧
    (fillPass w).indices.length = faceCountOf w * 6 := by
  unfold fillPass faceCountOf
  generalize entriesOf w = es
  suffices h : ∀ (es : List (Pos × ℕ)) (b : MeshBuild),
      ((es.foldl (fun b e => (List.range 6).foldl
          (fun b f => if faceVisible w e.1 e.2 f then emitFace e.1 e.2 f b else b) b)
        b).fi =
        b.fi + es.foldl (fun n e =>
          n + ((List.range 6).filter (fun f => faceVisible w e.1 e.2 f)).length) 0) ∧
      ((es.foldl (fun b e => (List.range 6).foldl
          (fun b f => if faceVisible w e.1 e.2 f then emitFace e.1 e.2 f b else b) b)
        b).vi =
        b.vi + 4 * es.foldl (fun n e =>
          n + ((List.range 6).filter (fun f => faceVisible w e.1 e.2 f)).length) 0) ∧
      ((es.foldl (fun b e => (List.range 6).foldl
          (fun b f => if faceVisible w e.1 e.2 f then emitFace e.1 e.2 f b else b) b)
        b).positions.length =
        b.positions.length + 12 * es.foldl (fun n e =>
          n + ((List.range 6).filter (fun f => faceVisible w e.1 e.2 f)).length) 0) ∧
      ((es.foldl (fun b e => (List.range 6).foldl
          (fun b f => if faceVisible w e.1 e.2 f then emitFace e.1 e.2 f b else b) b)
        b).normals.length =
        b.normals.length + 12 * es.foldl (fun n e =>
          n + ((List.range 6).filter (fun f => faceVisible w e.1 e.2 f)).length) 0) ∧
      ((es.foldl (fun b e => (List.range 6).foldl
          (fun b f => if faceVisible w e.1 e.2 f then emitFace e.1 e.2 f b else b) b)
        b).uvs.length =
        b.uvs.length + 8 * es.foldl (fun n e =>
          n + ((List.range 6).filter (fun f => faceVisible w e.1 e.2 f)).length) 0) ∧
      ((es.foldl (fun b e => (List.range 6).foldl
          (fun b f => if faceVisible w e.1 e.2 f then emitFace e.1 e.2 f b else b) b)
        b).colors.length =
        b.colors.length + 12 * es.foldl (fun n e =>
          n + ((List.range 6).filter (fun f => faceVisible w e.1 e.2 f)).length) 0) ∧
      ((es.foldl (fun b e => (List.range 6).foldl
          (fun b f => if faceVisible w e.1 e.2 f then emitFace e.1 e.2 f b else b) b)
        b).indices.length =
        b.indices.length + 6 * es.foldl (fun n e =>
          n + ((List.range 6).filter (fun f => faceVisible w e.1 e.2 f)).length) 0) by
    obtain ⟨h1, h2, h3, h4, h5, h6, h7⟩ := h es emptyBuild
    simp only [emptyBuild, List.length_nil] at h1 h2 h3 h4 h5 h6 h7 ⊢
    refine ⟨?_, ?_, ?_, ?_, ?_, ?_, ?_⟩ <;> omega
  intro es
  induction es with
  | nil => intro b; simp
  | cons e es ih =>
      intro b
      simp only [List.foldl_cons]
      obtain ⟨f1, f2, f3, f4, f5, f6, f7⟩ :=
        foldFaces_sizes w e.1 e.2 (List.range 6) b
      obtain ⟨i1, i2, i3, i4, i5, i6, i7⟩ := ih
        ((List.range 6).foldl
          (fun b f => if faceVisible w e.1 e.2 f then emitFace e.1 e.2 f b else b) b)
      rw [foldl_add_count w es]
      refine ⟨?_, ?_, ?_, ?_, ?_, ?_, ?_⟩ <;> omega


theorem mem_intRange {a b t : ℤ} : t ∈ intRange a b ↔ a ≤ t ∧ t ≤ b := by
  unfold intRange
  simp only [List.mem_map, List.mem_range]
  constructor
  · rintro ⟨i, hi, rfl⟩
    constructor <;> omega
  · rintro ⟨h1, h2⟩
    exact ⟨(t - a).toNat, by omega, by omega⟩

theorem colX_inj {size : ℕ} {i i' : ℕ} (h : colX size i = colX size i') : i = i' := by
  unfold colX at h
  have : (i : ℚ) = (i' : ℚ) := by linarith
  exact_mod_cast this

/-- A present key survives a `set` at any key: it keeps its value unless the
set targets it. -/
theorem World.get_set_of_ne (w : World) {k k' : Pos} (v : ℕ) (h : k' ≠ k) :
    (w.set k v).get k' = w.get k' := by
  rw [World.get_set, if_neg h]

theorem leafStep_get_preserved (x z : ℚ) (h : ℤ) (w : World) (off : ℤ × ℤ × ℤ)
    {k : Pos} {v : ℕ} (hv : w.get k = some v) :
    (leafStep x z h w off).get k = some v := by
  unfold leafStep
  dsimp only
  split
  · split
    · exact hv
    · next hhas =>
        rw [World.get_set, if_neg, hv]
        intro he
        subst he
        rw [World.has, hv] at hhas
        simp at hhas
  · exact hv

theorem leavesFold_get_preserved (x z : ℚ) (h : ℤ) (offs : List (ℤ × ℤ × ℤ)) :
    ∀ (w : World) {k : Pos} {v : ℕ}, w.get k = some v →
      (offs.foldl (leafStep x z h) w).get k = some v := by
  induction offs with
  | nil => intro w k v hv; exact hv
  | cons off offs ih =>
      intro w k v hv
      exact ih _ (leafStep_get_preserved x z h w off hv)

theorem trunkFold_get_of_ne (x z : ℚ) (l : List ℤ) :
    ∀ (w : World) {k : Pos}, (∀ ty ∈ l, k ≠ (x, (ty : ℚ), z)) →
      (l.foldl (fun w ty => w.set (x, (ty : ℚ), z) WOOD) w).get k = w.get k := by
  induction l with
  | nil => intro w k _; rfl
  | cons ty l ih =>
      intro w k hk
      rw [List.foldl_cons, ih _ (fun t ht => hk t (List.mem_cons_of_mem _ ht)),
        World.get_set_of_ne _ _ (hk ty (List.mem_cons_self _ _))]

/-- The tree pass `treePart` never changes a key that already holds a value, except the
trunk cells of its own column (which lie strictly above the surface). -/
theorem treePart_get_preserved (size : ℕ) (seed : ℚ) (i j : ℕ) (w : World)
    {k : Pos} {v : ℕ}
    (hk : ∀ t : ℤ, heightAt size seed i j + 1 ≤ t → t ≤ heightAt size seed i j + 4 →
      k ≠ (colX size i, (t : ℚ), colX size j))
    (hv : w.get k = some v) :
    (treePart size seed i j w).get k = some v := by
  unfold treePart
  dsimp only
  split
  · split
    · apply leavesFold_get_preserved
      rw [trunkFold_get_of_ne]
      · exact hv
      · intro ty hty
        rcases mem_intRange.mp hty with ⟨h1, h2⟩
        exact hk ty h1 h2
    · exact hv
  · exact hv


theorem fillFold_get_of_ne (x z : ℚ) (h : ℤ) :
    ∀ (n : ℕ) (w : World) (k : Pos),
      (∀ m : ℕ, m < n → k ≠ (x, (m : ℚ), z)) →
      ((List.range n).foldl
        (fun w (yn : ℕ) => w.set (x, (yn : ℚ), z) (columnBlock h (yn : ℤ))) w).get k =
      w.get k := by
  intro n
  induction n with
  | zero => intro w k _; rfl
  | succ n ih =>
      intro w k hk
      rw [List.range_succ, List.foldl_append, List.foldl_cons, List.foldl_nil,
        World.get_set_of_ne _ _ (hk n (by omega))]
      exact ih w k (fun m hm => hk m (by omega))

theorem fillFold_get_at (x z : ℚ) (h : ℤ) :
    ∀ (n : ℕ) (w : World) (m : ℕ), m < n →
      ((List.range n).foldl
        (fun w (yn : ℕ) => w.set (x, (yn : ℚ), z) (columnBlock h (yn : ℤ))) w).get
          (x, (m : ℚ), z) =
      some (columnBlock h (m : ℤ)) := by
  intro n
  induction n with
  | zero => intro w m hm; omega
  | succ n ih =>
      intro w m hm
      rw [List.range_succ, List.foldl_append, List.foldl_cons, List.foldl_nil]
      rcases eq_or_lt_of_le (Nat.lt_succ_iff.mp hm) with he | hlt
      · subst he
        rw [World.get_set, if_pos rfl]
      · have hne : ((x, (m : ℚ), z) : Pos) ≠ (x, (n : ℚ), z) := by
          intro hcon
          have : ((m : ℚ)) = (n : ℚ) := congrArg (fun p : Pos => p.2.1) hcon
          have : m = n := by exact_mod_cast this
          omega
        rw [World.get_set_of_ne _ _ hne]
        exact ih w m hlt

theorem fillColumn_get_at (size : ℕ) (seed : ℚ) (i j : ℕ) (w : World) (y : ℤ)
    (hy0 : 0 ≤ y) (hyh : y ≤ heightAt size seed i j) :
    (fillColumn size seed i j w).get (colX size i, (y : ℚ), colX size j) =
      some (columnBlock (heightAt size seed i j) y) := by
  unfold fillColumn
  dsimp only
  have hm : y.toNat < (heightAt size seed i j + 1).toNat := by omega
  have hres := fillFold_get_at (colX size i) (colX size j)
    (heightAt size seed i j) _ w y.toNat hm
  have hc1 : ((y.toNat : ℚ)) = (y : ℚ) := by
    exact_mod_cast congrArg (fun t : ℤ => (t : ℚ)) (Int.toNat_of_nonneg hy0)
  have hc2 : ((y.toNat : ℤ)) = y := Int.toNat_of_nonneg hy0
  rw [hc1, hc2] at hres
  exact hres

theorem fillColumn_get_of_ne (size : ℕ) (seed : ℚ) (i j : ℕ) (w : World)
    (k : Pos) (hk : k.1 ≠ colX size i ∨ k.2.2 ≠ colX size j) :
    (fillColumn size seed i j w).get k = w.get k := by
  unfold fillColumn
  dsimp only
  apply fillFold_get_of_ne
  intro m _ he
  rcases hk with hk | hk <;> (rw [he] at hk; simp at hk)

theorem processColumn_get_self (size : ℕ) (seed : ℚ) (i j : ℕ) (w : World)
    (y : ℤ) (hy0 : 0 ≤ y) (hyh : y ≤ heightAt size seed i j) :
    (processColumn size seed i j w).get (colX size i, (y : ℚ), colX size j) =
      some (columnBlock (heightAt size seed i j) y) := by
  unfold processColumn
  apply treePart_get_preserved
  · intro t ht1 _ he
    have hq : ((y : ℚ)) = (t : ℚ) := congrArg (fun p : Pos => p.2.1) he
    have : y = t := by exact_mod_cast hq
    omega
  · exact fillColumn_get_at size seed i j w y hy0 hyh

theorem processColumn_get_preserved (size : ℕ) (seed : ℚ) (i j : ℕ) (w : World)
    {k : Pos} {v : ℕ} (hk : k.1 ≠ colX size i ∨ k.2.2 ≠ colX size j)
    (hv : w.get k = some v) :
    (processColumn size seed i j w).get k = some v := by
  unfold processColumn
  apply treePart_get_preserved
  · intro t _ _ he
    rcases hk with hk | hk <;> (rw [he] at hk; simp at hk)
  · rw [fillColumn_get_of_ne size seed i j w k hk]
    exact hv

theorem foldCols_preserved (size : ℕ) (seed : ℚ) (L : List (ℕ × ℕ)) :
    ∀ (w : World) {k : Pos} {v : ℕ}, w.get k = some v →
      (∀ c ∈ L, k.1 ≠ colX size c.1 ∨ k.2.2 ≠ colX size c.2) →
      (L.foldl (fun w ij => processColumn size seed ij.1 ij.2 w) w).get k = some v := by
  induction L with
  | nil => intro w k v hv _; exact hv
  | cons c L ih =>
      intro w k v hv hk
      rw [List.foldl_cons]
      exact ih _ (processColumn_get_preserved size seed c.1 c.2 w
          (hk c (List.mem_cons_self _ _)) hv)
        (fun c' hc' => hk c' (List.mem_cons_of_mem _ hc'))

theorem columnsList_eq_product (size : ℕ) :
    columnsList size = List.product (List.range size) (List.range size) := rfl

theorem columnsList_nodup (size : ℕ) : (columnsList size).Nodup := by
  rw [columnsList_eq_product]
  exact List.Nodup.product (List.nodup_range size) (List.nodup_range size)

theorem mem_columnsList {size i j : ℕ} :
    (i, j) ∈ columnsList size ↔ i < size ∧ j < size := by
  rw [columnsList_eq_product]
  rw [show List.product (List.range size) (List.range size) =
    (List.range size) ×ˢ (List.range size) from rfl]
  rw [List.mem_product]
  simp [List.mem_range]

/-- C8: Terrain column layering — for every generated column, letting
`height = ⌊seaLevel + noise · maxHeight⌋`, every `y` from 0 to `height`
inclusive is filled; the block at `y = height` is sand when the height is at
sea level (`height < 5`), snow when well above it (`height > 12`), grass
otherwise; the two layers beneath the surface are dirt; and every deeper
filled `y` is stone. -/
theorem terrain_column_layering (size : ℕ) (seed : ℚ) (i j : ℕ)
    (hi : i < size) (hj : j < size) (y : ℤ) (hy0 : 0 ≤ y)
    (hyh : y ≤ heightAt size seed i j) :
    (generateTerrain size seed).get (colX size i, (y : ℚ), colX size j) =
      some (if y = heightAt size seed i j then
              (if heightAt size seed i j < 4 + 1 then SAND
               else if heightAt size seed i j > 4 + 8 then SNOW else GRASS)
            else if y > heightAt size seed i j - 3 then DIRT
            else STONE) := by
  obtain ⟨L1, L2, hsplit⟩ := List.append_of_mem (mem_columnsList.mpr ⟨hi, hj⟩)
  have hnd := columnsList_nodup size
  rw [hsplit] at hnd
  have hnotin : (i, j) ∉ L2 := (List.nodup_cons.mp hnd.of_append_right).1
  unfold generateTerrain
  rw [hsplit, List.foldl_append, List.foldl_cons]
  have hpres := foldCols_preserved size seed L2
    (w := processColumn size seed i j (L1.foldl
      (fun w ij => processColumn size seed ij.1 ij.2 w) []))
    (processColumn_get_self size seed i j _ y hy0 hyh)
    (fun c hc => by
      by_cases hci : c.1 = i
      · right
        intro he
        have : j = c.2 := colX_inj he
        apply hnotin
        have : c = (i, j) := by
          rcases c with ⟨c1, c2⟩
          simp only [Prod.mk.injEq]
          exact ⟨hci, this.symm⟩
        rw [← this]
        exact hc
      · left
        intro he
        exact hci (colX_inj he.symm))
  exact hpres


theorem hash_nonneg (x z : ℚ) : 0 ≤ hash x z := by
  unfold hash
  dsimp only
  positivity

theorem bilinear_nonneg {a b c d ux uz : ℚ} (ha : 0 ≤ a) (hb : 0 ≤ b)
    (hc : 0 ≤ c) (hd : 0 ≤ d) (hux0 : 0 ≤ ux) (hux1 : ux ≤ 1)
    (huz0 : 0 ≤ uz) (huz1 : uz ≤ 1) :
    0 ≤ a + (b - a) * ux + (c - a) * uz + (d - b - c + a) * ux * uz := by
  nlinarith [mul_nonneg (mul_nonneg (by linarith : (0:ℚ) ≤ 1 - ux)
      (by linarith : (0:ℚ) ≤ 1 - uz)) ha,
    mul_nonneg (mul_nonneg hux0 (by linarith : (0:ℚ) ≤ 1 - uz)) hb,
    mul_nonneg (mul_nonneg (by linarith : (0:ℚ) ≤ 1 - ux) huz0) hc,
    mul_nonneg (mul_nonneg hux0 huz0) hd]

theorem smooth_weight_nonneg {f : ℚ} (h0 : 0 ≤ f) (h1 : f ≤ 1) :
    0 ≤ f * f * (3 - 2 * f) := by
  nlinarith

theorem smooth_weight_le_one {f : ℚ} (h0 : 0 ≤ f) (h1 : f ≤ 1) :
    f * f * (3 - 2 * f) ≤ 1 := by
  nlinarith [mul_nonneg (sq_nonneg (1 - f)) (by linarith : (0:ℚ) ≤ 1 + 2 * f)]

theorem smoothNoise_nonneg (x z : ℚ) : 0 ≤ smoothNoise x z := by
  unfold smoothNoise
  dsimp only
  have hfx0 : (0:ℚ) ≤ x - ⌊x⌋ := sub_nonneg.mpr (Int.floor_le x)
  have hfx1 : x - (⌊x⌋ : ℚ) ≤ 1 := by
    have := Int.lt_floor_add_one x
    linarith
  have hfz0 : (0:ℚ) ≤ z - ⌊z⌋ := sub_nonneg.mpr (Int.floor_le z)
  have hfz1 : z - (⌊z⌋ : ℚ) ≤ 1 := by
    have := Int.lt_floor_add_one z
    linarith
  exact bilinear_nonneg (hash_nonneg _ _) (hash_nonneg _ _) (hash_nonneg _ _)
    (hash_nonneg _ _) (smooth_weight_nonneg hfx0 hfx1)
    (smooth_weight_le_one hfx0 hfx1) (smooth_weight_nonneg hfz0 hfz1)
    (smooth_weight_le_one hfz0 hfz1)

theorem octaveFold_nonneg (x z : ℚ) (l : List ℕ) :
    ∀ acc : ℚ × ℚ × ℚ × ℚ, 0 ≤ acc.1 → 0 ≤ acc.2.1 → 0 ≤ acc.2.2.2 →
      0 ≤ (l.foldl (fun (acc : ℚ × ℚ × ℚ × ℚ) _ =>
          (acc.1 + smoothNoise (x * acc.2.2.1) (z * acc.2.2.1) * acc.2.1,
           acc.2.1 * (1/2), acc.2.2.1 * 2, acc.2.2.2 + acc.2.1)) acc).1 ∧
      0 ≤ (l.foldl (fun (acc : ℚ × ℚ × ℚ × ℚ) _ =>
          (acc.1 + smoothNoise (x * acc.2.2.1) (z * acc.2.2.1) * acc.2.1,
           acc.2.1 * (1/2), acc.2.2.1 * 2, acc.2.2.2 + acc.2.1)) acc).2.2.2 := by
  induction l with
  | nil => intro acc h1 _ h3; exact ⟨h1, h3⟩
  | cons e l ih =>
      intro acc h1 h2 h3
      rw [List.foldl_cons]
      exact ih _
        (add_nonneg h1 (mul_nonneg (smoothNoise_nonneg _ _) h2))
        (mul_nonneg h2 (by norm_num))
        (add_nonneg h3 h2)

theorem octaveNoise_nonneg (x z : ℚ) (octaves : ℕ) :
    0 ≤ octaveNoise x z octaves := by
  unfold octaveNoise
  dsimp only
  obtain ⟨h1, h3⟩ := octaveFold_nonneg x z (List.range octaves) (0, 1, 1, 0)
    le_rfl (by norm_num) le_rfl
  exact div_nonneg h1 h3

/-- Every generated column height is at least sea level (the noise is
nonnegative), hence nonnegative. -/
theorem heightAt_nonneg (size : ℕ) (seed : ℚ) (i j : ℕ) :
    0 ≤ heightAt size seed i j := by
  unfold heightAt
  dsimp only
  rw [Int.le_floor]
  have := octaveNoise_nonneg ((colX size i + seed) * (5/100))
    ((colX size j + seed) * (5/100)) 4
  push_cast
  nlinarith

/-- Closed-form witness for C8 at size 1, seed 42, column (0,0), y = 0. -/
theorem terrain_column_layering_witness :
    0 ≤ heightAt 1 42 0 0 ∧
    (generateTerrain 1 42).get (colX 1 0, ((0 : ℤ) : ℚ), colX 1 0) =
      some (if (0 : ℤ) = heightAt 1 42 0 0 then
              (if heightAt 1 42 0 0 < 4 + 1 then SAND
               else if heightAt 1 42 0 0 > 4 + 8 then SNOW else GRASS)
            else if (0 : ℤ) > heightAt 1 42 0 0 - 3 then DIRT
            else STONE) :=
  ⟨heightAt_nonneg 1 42 0 0,
   terrain_column_layering 1 42 0 0 (by decide) (by decide) 0 le_rfl
     (heightAt_nonneg 1 42 0 0)⟩

end VoxelGame
